import Mathlib

/-!
Verification of the hotel relevance scorer in `routes/ai.js`
(`GET /api/hotels/search`) of the Smart-Stay repository.

Strings are modelled as lists of characters; the JavaScript operations
`toLowerCase`, `includes`, `split(',')[0]` and `trim` are embedded below.
-/

namespace SmartStay

/-- A JavaScript string, modelled as its list of characters. -/
abbrev Str := List Char

/-- JS `String.prototype.toLowerCase` (ASCII-relevant part). -/
def lowerStr (s : Str) : Str := s.map Char.toLower

/-- `isPrefOf sub s` holds when `sub` occurs at the start of `s`. -/
def isPrefOf : Str → Str → Bool
  | [], _ => true
  | _ :: _, [] => false
  | a :: as, b :: bs => a == b && isPrefOf as bs

/-- JS `s.includes(sub)`: `sub` occurs contiguously somewhere in `s`. -/
def containsSub : Str → Str → Bool
  | [], sub => isPrefOf sub []
  | s@(_ :: t), sub => isPrefOf sub s || containsSub t sub

/-- JS `s.split(',')[0]`: the characters before the first comma. -/
def firstSegment (s : Str) : Str := s.takeWhile (fun c => c != ',')

/-- JS `String.prototype.trim`: surrounding whitespace removed. This is
needed only to state claim C2, whose wording demands trimming; the source
itself never trims. -/
def jsTrim (s : Str) : Str :=
  ((s.dropWhile Char.isWhitespace).reverse.dropWhile Char.isWhitespace).reverse

/-- A hotel listing as consumed by the search route (fields absent in the
database are modelled by the empty string or the empty list, matching the
`|| ''` and `hotel.amenities &&` guards in the source). -/
structure HotelRecord where
  title : Str
  description : Str
  location : Str
  price : Int
  amenities : List Str
deriving DecidableEq

/-- A record as returned by the route: the original fields plus an optional
`matchScore` (present only on the scored path). -/
structure OutRec where
  base : HotelRecord
  matchScore : Option Int
deriving DecidableEq

/-- The response body `\x7b success, count, hotels \x7d` (success omitted:
it is constantly true on this path). -/
structure SearchResponse where
  count : Nat
  hotels : List OutRec
deriving DecidableEq

/-- The fixed keyword vocabulary from the source, in source order. -/
def keywords : List Str :=
  ["pool".data, "wifi".data, "parking".data, "beach".data, "ac".data,
   "air conditioning".data, "kitchen".data, "gym".data, "spa".data,
   "garden".data, "luxury".data, "budget".data, "family".data, "couple".data,
   "business".data, "mountain".data, "hill".data, "sea".data]

/-- One iteration of the `keywords.forEach` loop in the source: the score
accumulator updated for one keyword. -/
def keywordStep (queryLower descLower titleLower : Str) (amenities : List Str)
    (score : Int) (kw : Str) : Int :=
  if containsSub queryLower kw then
    let s1 := if containsSub descLower kw || containsSub titleLower kw
      then score + 20 else score
    if amenities.any (fun a => containsSub (lowerStr a) kw) then s1 + 25 else s1
  else score

/-- The whole keyword loop: fold of `keywordStep` over the vocabulary,
starting from 0. -/
def keywordScore (queryLower descLower titleLower : Str) (amenities : List Str) : Int :=
  keywords.foldl (keywordStep queryLower descLower titleLower amenities) 0

/-- The location bonus of the source:
`queryLower.includes(locationLower.split(',')[0].toLowerCase())`. -/
def locBonus (queryLower : Str) (r : HotelRecord) : Int :=
  if containsSub queryLower (lowerStr (firstSegment (lowerStr r.location)))
  then 30 else 0

/-- The three price-range bonuses of the source, as a sum. -/
def priceBonus (queryLower : Str) (price : Int) : Int :=
  (if containsSub queryLower "budget".data ∧ price < 3000 then 15 else 0) +
  (if containsSub queryLower "luxury".data ∧ price > 4000 then 15 else 0) +
  (if containsSub queryLower "mid".data ∧ 2500 ≤ price ∧ price ≤ 4500 then 15 else 0)

/-- The per-record score of the source, written exactly in source shape:
keyword loop, then the location bonus, then three sequential price
conditionals, then `Math.min(score, 100)`. -/
def scoreHotel (queryLower : Str) (r : HotelRecord) : Int :=
  let descLower := lowerStr r.description
  let titleLower := lowerStr r.title
  let locationLower := lowerStr r.location
  let s1 := keywords.foldl (keywordStep queryLower descLower titleLower r.amenities) 0
  let s2 := if containsSub queryLower (lowerStr (firstSegment locationLower))
    then s1 + 30 else s1
  let s3 := if containsSub queryLower "budget".data ∧ r.price < 3000
    then s2 + 15 else s2
  let s4 := if containsSub queryLower "luxury".data ∧ r.price > 4000
    then s3 + 15 else s3
  let s5 := if containsSub queryLower "mid".data ∧ 2500 ≤ r.price ∧ r.price ≤ 4500
    then s4 + 15 else s4
  min s5 100

/-- JS truthiness of an optional string parameter (`undefined` and the
empty string are falsy). -/
def isTruthy : Option Str → Bool
  | none => false
  | some s => !s.isEmpty

/-- The `location` part of the MongoDB filter: case-insensitive substring
match, skipped when the parameter is falsy. -/
def dbLocPass (location : Option Str) (r : HotelRecord) : Bool :=
  match location with
  | some loc =>
      if loc.isEmpty then true
      else containsSub (lowerStr r.location) (lowerStr loc)
  | none => true

/-- The `maxPrice` part of the MongoDB filter: `price <= maxPrice`,
skipped when the parameter is absent. -/
def dbPricePass (maxPrice : Option Int) (r : HotelRecord) : Bool :=
  match maxPrice with
  | some mp => decide (r.price ≤ mp)
  | none => true

/-- The full MongoDB filter built by the route. -/
def dbPass (location : Option Str) (maxPrice : Option Int) (r : HotelRecord) : Bool :=
  dbLocPass location r && dbPricePass maxPrice r

/-- The structurally filtered working set (`Listing.find(filter)`). -/
def stageFiltered (location : Option Str) (maxPrice : Option Int)
    (listings : List HotelRecord) : List HotelRecord :=
  listings.filter (dbPass location maxPrice)

/-- Spread `\x7b ...hotel, matchScore \x7d`: a fresh record carrying a score. -/
def mkScored (queryLower : Str) (r : HotelRecord) : OutRec :=
  ⟨r, some (scoreHotel queryLower r)⟩

/-- A record returned without any `matchScore` field. -/
def mkPlain (r : HotelRecord) : OutRec := ⟨r, none⟩

/-- The sort key: `matchScore`, defaulting to 0 (on the sorted path every
record carries a score, so the default is never consulted there). -/
def scoreOf (r : OutRec) : Int := r.matchScore.getD 0

/-- Stable descending insertion: `x` goes in front of the first element
whose score does not exceed the score of `x`. -/
def insertDesc (x : OutRec) : List OutRec → List OutRec
  | [] => [x]
  | y :: ys => if scoreOf y ≤ scoreOf x then x :: y :: ys else y :: insertDesc x ys

/-- The stable descending sort modelling
`hotels.sort((a, b) => b.matchScore - a.matchScore)` (ECMAScript 2019
requires `Array.prototype.sort` to be stable). -/
def sortByScore : List OutRec → List OutRec
  | [] => []
  | x :: xs => insertDesc x (sortByScore xs)

/-- The scoring stage: guarded by `if (query && hotels.length > 0)`. -/
def stageScored (query : Option Str) (hs : List HotelRecord) : List OutRec :=
  if isTruthy query && !hs.isEmpty then
    sortByScore (hs.map (mkScored (lowerStr (query.getD []))))
  else hs.map mkPlain

/-- The amenity post-filter of the route. -/
def amenityPass (amenityLower : Str) (r : OutRec) : Bool :=
  containsSub (lowerStr r.base.description) amenityLower ||
    r.base.amenities.any (fun a => containsSub (lowerStr a) amenityLower)

/-- The amenity stage: guarded by `if (amenity)`. -/
def stageAmenity (amenity : Option Str) (l : List OutRec) : List OutRec :=
  if isTruthy amenity then l.filter (amenityPass (lowerStr (amenity.getD []))) else l

/-- The whole search pipeline of `GET /api/hotels/search`: structural
filters, optional scoring and sorting, optional amenity filter, truncation
to 20, response with its count. -/
def searchHotels (query location : Option Str) (maxPrice : Option Int)
    (amenity : Option Str) (listings : List HotelRecord) : SearchResponse :=
  let hotels := (stageAmenity amenity
    (stageScored query (stageFiltered location maxPrice listings))).take 20
  ⟨hotels.length, hotels⟩

/-- The per-keyword contribution described by the specification: 20 points
for a gated title/description hit, plus 25 points for a gated amenity hit. -/
def kwContribution (queryLower descLower titleLower : Str) (amenities : List Str)
    (kw : Str) : Int :=
  (if containsSub queryLower kw && (containsSub descLower kw || containsSub titleLower kw)
    then 20 else 0) +
  (if containsSub queryLower kw && amenities.any (fun a => containsSub (lowerStr a) kw)
    then 25 else 0)

/-- Descending sortedness by `scoreOf`. -/
def SortedDesc (l : List OutRec) : Prop :=
  List.Pairwise (fun a b => scoreOf b ≤ scoreOf a) l

/-- A concrete record used by the witness theorems. -/
def hW : HotelRecord :=
  ⟨"Pool House".data, "".data, "Goa".data, 2000, ["Pool".data]⟩

/-- The record of the C2 counterexample: the first comma segment of its
location carries a leading space, so trimming changes the lookup string. -/
def rC2 : HotelRecord :=
  ⟨"Villa".data, "Nice stay".data, " Calangute, Goa".data, 5000, []⟩

theorem isPrefOf_iff (sub s : Str) : isPrefOf sub s = true ↔ ∃ t, s = sub ++ t := by
  induction sub generalizing s with
  | nil => simp [isPrefOf]
  | cons a as ih =>
    cases s with
    | nil => simp [isPrefOf]
    | cons b bs =>
      simp only [isPrefOf, Bool.and_eq_true, beq_iff_eq, ih, List.cons_append]
      constructor
      · rintro ⟨rfl, t, rfl⟩
        exact ⟨t, rfl⟩
      · rintro ⟨t, ht⟩
        injection ht with h1 h2
        exact ⟨h1.symm, t, h2⟩

theorem containsSub_iff (s sub : Str) :
    containsSub s sub = true ↔ ∃ p t, s = p ++ (sub ++ t) := by
  induction s with
  | nil =>
    simp only [containsSub, isPrefOf_iff]
    constructor
    · rintro ⟨t, ht⟩
      rcases List.append_eq_nil.1 ht.symm with ⟨rfl, rfl⟩
      exact ⟨[], [], rfl⟩
    · rintro ⟨p, t, hpt⟩
      rcases List.append_eq_nil.1 hpt.symm with ⟨rfl, h2⟩
      rcases List.append_eq_nil.1 h2 with ⟨rfl, rfl⟩
      exact ⟨[], rfl⟩
  | cons c t ih =>
    simp only [containsSub, Bool.or_eq_true, isPrefOf_iff, ih]
    constructor
    · rintro (⟨u, hu⟩ | ⟨p, u, hpu⟩)
      · exact ⟨[], u, by simp [hu]⟩
      · exact ⟨c :: p, u, by simp [hpu]⟩
    · rintro ⟨p, u, hpu⟩
      cases p with
      | nil =>
        left
        exact ⟨u, by simpa using hpu⟩
      | cons d ps =>
        right
        injection hpu with h1 h2
        exact ⟨ps, u, h2⟩

theorem containsSub_trans {s b a : Str} (h1 : containsSub s b = true)
    (h2 : containsSub b a = true) : containsSub s a = true := by
  rcases (containsSub_iff s b).1 h1 with ⟨p, t, rfl⟩
  rcases (containsSub_iff b a).1 h2 with ⟨q, u, rfl⟩
  exact (containsSub_iff _ a).2 ⟨p ++ q, u ++ t, by simp⟩

theorem keywordStep_eq (qL dL tL : Str) (ams : List Str) (s : Int) (kw : Str) :
    keywordStep qL dL tL ams s kw = s + kwContribution qL dL tL ams kw := by
  simp only [keywordStep, kwContribution]
  cases hq : containsSub qL kw <;>
    cases ht : (containsSub dL kw || containsSub tL kw) <;>
      cases ha : ams.any (fun a => containsSub (lowerStr a) kw) <;>
        (simp [hq, ht, ha]; try omega)

theorem foldl_step_sum (step : Int → Str → Int) (f : Str → Int)
    (hstep : ∀ s kw, step s kw = s + f kw) (l : List Str) (init : Int) :
    l.foldl step init = init + (l.map f).sum := by
  induction l generalizing init with
  | nil => simp
  | cons kw t ih => simp [hstep, ih, add_assoc]

theorem keywordScore_eq_sum (qL dL tL : Str) (ams : List Str) :
    keywordScore qL dL tL ams =
      (keywords.map (kwContribution qL dL tL ams)).sum := by
  simpa using foldl_step_sum (keywordStep qL dL tL ams) (kwContribution qL dL tL ams)
    (keywordStep_eq qL dL tL ams) keywords 0

theorem kwContribution_nonneg (qL dL tL : Str) (ams : List Str) (kw : Str) :
    0 ≤ kwContribution qL dL tL ams kw := by
  simp only [kwContribution]
  split <;> split <;> omega

theorem keywordScore_nonneg (qL dL tL : Str) (ams : List Str) :
    0 ≤ keywordScore qL dL tL ams := by
  rw [keywordScore_eq_sum]
  refine List.sum_nonneg ?_
  intro x hx
  rcases List.mem_map.1 hx with ⟨kw, _, rfl⟩
  exact kwContribution_nonneg qL dL tL ams kw

theorem locBonus_nonneg (qL : Str) (r : HotelRecord) : 0 ≤ locBonus qL r := by
  simp only [locBonus]
  split <;> omega

theorem priceBonus_nonneg (qL : Str) (p : Int) : 0 ≤ priceBonus qL p := by
  simp only [priceBonus]
  split <;> split <;> split <;> omega

theorem scoreHotel_decomp (qL : Str) (r : HotelRecord) :
    scoreHotel qL r =
      min (keywordScore qL (lowerStr r.description) (lowerStr r.title) r.amenities
        + locBonus qL r + priceBonus qL r.price) 100 := by
  simp only [scoreHotel, keywordScore, locBonus, priceBonus]
  split <;> split <;> split <;> split <;> omega

theorem scoreHotel_bounds (qL : Str) (r : HotelRecord) :
    0 ≤ scoreHotel qL r ∧ scoreHotel qL r ≤ 100 := by
  rw [scoreHotel_decomp]
  have h1 := keywordScore_nonneg qL (lowerStr r.description) (lowerStr r.title) r.amenities
  have h2 := locBonus_nonneg qL r
  have h3 := priceBonus_nonneg qL r.price
  omega

theorem insertDesc_perm (x : OutRec) (l : List OutRec) :
    List.Perm (insertDesc x l) (x :: l) := by
  induction l with
  | nil => simp [insertDesc]
  | cons y ys ih =>
    simp only [insertDesc]
    split
    · exact List.Perm.refl _
    · exact List.Perm.trans (List.Perm.cons y ih) (List.Perm.swap x y ys)

theorem sortByScore_perm (l : List OutRec) : List.Perm (sortByScore l) l := by
  induction l with
  | nil => simp [sortByScore]
  | cons x xs ih =>
    exact List.Perm.trans (insertDesc_perm x (sortByScore xs)) (List.Perm.cons x ih)

theorem mem_sortByScore {x : OutRec} {l : List OutRec} :
    x ∈ sortByScore l ↔ x ∈ l :=
  (sortByScore_perm l).mem_iff

theorem insertDesc_sorted (x : OutRec) (l : List OutRec) (hl : SortedDesc l) :
    SortedDesc (insertDesc x l) := by
  induction l with
  | nil => simp [insertDesc, SortedDesc]
  | cons y ys ih =>
    rcases List.pairwise_cons.1 hl with ⟨hy, hys⟩
    simp only [insertDesc]
    split
    case isTrue h =>
      refine List.pairwise_cons.2 ⟨?_, hl⟩
      intro z hz
      rcases List.mem_cons.1 hz with rfl | hz2
      · exact h
      · exact le_trans (hy z hz2) h
    case isFalse h =>
      refine List.pairwise_cons.2 ⟨?_, ih hys⟩
      intro z hz
      rcases List.mem_cons.1 ((insertDesc_perm x ys).mem_iff.1 hz) with rfl | hz2
      · exact le_of_lt (lt_of_not_le h)
      · exact hy z hz2

theorem sortByScore_sorted (l : List OutRec) : SortedDesc (sortByScore l) := by
  induction l with
  | nil => simp [sortByScore, SortedDesc]
  | cons x xs ih => exact insertDesc_sorted x (sortByScore xs) ih

theorem filter_insertDesc (s : Int) (x : OutRec) (l : List OutRec) :
    (insertDesc x l).filter (fun r => scoreOf r == s) =
      (x :: l).filter (fun r => scoreOf r == s) := by
  induction l with
  | nil => rfl
  | cons y ys ih =>
    simp only [insertDesc]
    split
    case isTrue h => rfl
    case isFalse h =>
      by_cases hx : scoreOf x = s
      · have hy : (scoreOf y == s) = false := by
          have hlt : scoreOf x < scoreOf y := lt_of_not_le h
          simp only [beq_eq_false_iff_ne, ne_eq]
          omega
        have hxb : (scoreOf x == s) = true := by simp [hx]
        simp [List.filter_cons, hy, hxb, ih]
      · have hxb : (scoreOf x == s) = false := by simp [hx]
        simp [List.filter_cons, hxb, ih]

theorem filter_sortByScore (s : Int) (l : List OutRec) :
    (sortByScore l).filter (fun r => scoreOf r == s) =
      l.filter (fun r => scoreOf r == s) := by
  induction l with
  | nil => rfl
  | cons x xs ih =>
    calc (insertDesc x (sortByScore xs)).filter (fun r => scoreOf r == s)
        = (x :: sortByScore xs).filter (fun r => scoreOf r == s) :=
          filter_insertDesc s x (sortByScore xs)
      _ = (x :: xs).filter (fun r => scoreOf r == s) := by
          simp only [List.filter_cons, ih]

theorem base_mem_stageScored {r : OutRec} {q : Option Str} {hs : List HotelRecord}
    (h : r ∈ stageScored q hs) : r.base ∈ hs := by
  unfold stageScored at h
  split at h
  · rcases List.mem_map.1 (mem_sortByScore.1 h) with ⟨hb, hmem, rfl⟩
    simpa [mkScored] using hmem
  · rcases List.mem_map.1 h with ⟨hb, hmem, rfl⟩
    simpa [mkPlain] using hmem

theorem score_of_mem_stageScored {r : OutRec} {q : Option Str} {hs : List HotelRecord}
    (h : r ∈ stageScored q hs) :
    r.matchScore = none ∨
      ∃ hb ∈ hs, r = mkScored (lowerStr (q.getD [])) hb := by
  unfold stageScored at h
  split at h
  · rcases List.mem_map.1 (mem_sortByScore.1 h) with ⟨hb, hmem, rfl⟩
    exact Or.inr ⟨hb, hmem, rfl⟩
  · rcases List.mem_map.1 h with ⟨hb, _, rfl⟩
    exact Or.inl rfl

theorem mem_hotels_mem_stageScored {r : OutRec} {query location : Option Str}
    {maxPrice : Option Int} {amenity : Option Str} {listings : List HotelRecord}
    (h : r ∈ (searchHotels query location maxPrice amenity listings).hotels) :
    r ∈ stageScored query (stageFiltered location maxPrice listings) := by
  simp only [searchHotels] at h
  have h1 := List.take_subset 20 _ h
  unfold stageAmenity at h1
  split at h1
  · exact (List.mem_filter.1 h1).1
  · exact h1

/-- C1: for every record and every keyword of the fixed vocabulary, the
keyword loop contributes exactly 20 points when the keyword occurs in the
lower-cased query and in the lower-cased title or description, plus
exactly 25 points when it also occurs (case-insensitively) in some
amenity; the total of the loop is the sum of these per-keyword
contributions, and a keyword absent from the query contributes nothing. -/
theorem C1_keyword_scoring (queryLower : Str) (r : HotelRecord) (kw : Str)
    (hk : containsSub queryLower kw = false) :
    keywordScore queryLower (lowerStr r.description) (lowerStr r.title) r.amenities =
      (keywords.map (kwContribution queryLower (lowerStr r.description)
        (lowerStr r.title) r.amenities)).sum ∧
    kwContribution queryLower (lowerStr r.description) (lowerStr r.title)
      r.amenities kw = 0 := by
  refine ⟨keywordScore_eq_sum _ _ _ _, ?_⟩
  simp [kwContribution, hk]

/-- Witness for C1 at a concrete record and the keyword "pool", which does
not occur in the query "zzz". -/
theorem C1_keyword_scoring_witness :
    keywordScore "zzz".data (lowerStr hW.description) (lowerStr hW.title) hW.amenities =
      (keywords.map (kwContribution "zzz".data (lowerStr hW.description)
        (lowerStr hW.title) hW.amenities)).sum ∧
    kwContribution "zzz".data (lowerStr hW.description) (lowerStr hW.title)
      hW.amenities "pool".data = 0 :=
  C1_keyword_scoring "zzz".data hW "pool".data (by decide)

/-- C2 counterexample: the claim asserts the 30-point bonus is granted
precisely when the TRIMMED lower-cased first comma segment of the location
occurs in the query. For the record `rC2` (location " Calangute, Goa") and
query "calangute", the trimmed segment does occur in the query, yet the
code grants no bonus at all (the untrimmed segment " calangute" does not
occur), so the total score is 0, not 30. -/
theorem C2_counterexample_trim :
    containsSub "calangute".data
        (jsTrim (lowerStr (firstSegment rC2.location))) = true ∧
    locBonus "calangute".data rC2 = 0 ∧
    scoreHotel "calangute".data rC2 = 0 := by decide

/-- C2 (amended): exactly 30 points are added precisely when the first
comma-delimited segment of the location, lower-cased but NOT trimmed of
surrounding whitespace, occurs as a substring of the lower-cased query;
later comma segments never influence the bonus, and the bonus is always
either 0 or 30. -/
theorem C2_location_bonus (queryLower : Str) (r : HotelRecord) :
    scoreHotel queryLower r =
      min (keywordScore queryLower (lowerStr r.description) (lowerStr r.title) r.amenities
        + locBonus queryLower r + priceBonus queryLower r.price) 100 ∧
    (locBonus queryLower r = 30 ↔
      containsSub queryLower (lowerStr (firstSegment (lowerStr r.location))) = true) ∧
    (locBonus queryLower r = 30 ∨ locBonus queryLower r = 0) := by
  refine ⟨scoreHotel_decomp queryLower r, ?_, ?_⟩
  · simp only [locBonus]
    split
    case isTrue h => simpa using h
    case isFalse h => simpa using h
  · simp only [locBonus]
    split
    · exact Or.inl rfl
    · exact Or.inr rfl

/-- C3: the total score decomposes as keyword points plus location bonus
plus the three price bonuses, where 15 points are added iff the query
contains "budget" and price is strictly below 3000, 15 iff it contains
"luxury" and price is strictly above 4000, and 15 iff it contains "mid"
and 2500 <= price <= 4500 (bounds inclusive); the three are cumulative. -/
theorem C3_price_bonuses (queryLower : Str) (r : HotelRecord) :
    scoreHotel queryLower r =
      min (keywordScore queryLower (lowerStr r.description) (lowerStr r.title) r.amenities
        + locBonus queryLower r
        + ((if containsSub queryLower "budget".data ∧ r.price < 3000 then 15 else 0)
          + (if containsSub queryLower "luxury".data ∧ r.price > 4000 then 15 else 0)
          + (if containsSub queryLower "mid".data ∧ 2500 ≤ r.price ∧ r.price ≤ 4500
              then 15 else 0))) 100 :=
  scoreHotel_decomp queryLower r

/-- C4: every score the code computes lies in [0, 100], and in particular
every `matchScore` attached to a record returned by the pipeline lies in
[0, 100]. -/
theorem C4_matchScore_bounds (queryLower : Str) (anyRec : HotelRecord)
    (query location : Option Str) (maxPrice : Option Int) (amenity : Option Str)
    (listings : List HotelRecord) (r : OutRec) (s : Int)
    (hr : r ∈ (searchHotels query location maxPrice amenity listings).hotels)
    (hs : r.matchScore = some s) :
    (0 ≤ scoreHotel queryLower anyRec ∧ scoreHotel queryLower anyRec ≤ 100) ∧
    (0 ≤ s ∧ s ≤ 100) := by
  refine ⟨scoreHotel_bounds queryLower anyRec, ?_⟩
  rcases score_of_mem_stageScored (mem_hotels_mem_stageScored hr) with hnone | ⟨hb, _, rfl⟩
  · simp [hnone] at hs
  · simp only [mkScored] at hs
    injection hs with h
    rw [← h]
    exact scoreHotel_bounds _ hb

/-- Witness for C4: querying "pool" over the one-record set returns the
record scored 45, which lies inside the bounds. -/
theorem C4_matchScore_bounds_witness :
    (0 ≤ scoreHotel "pool".data hW ∧ scoreHotel "pool".data hW ≤ 100) ∧
    (0 ≤ (45 : Int) ∧ (45 : Int) ≤ 100) :=
  C4_matchScore_bounds "pool".data hW (some "pool".data) none none none [hW]
    ⟨hW, some 45⟩ 45 (by decide) (by decide)

/-- C5: on the query branch the working set is sorted by `matchScore`
descending with a stable sort: the output is sorted, is a permutation of
the scored input, and the records of any fixed score appear in exactly
their input order (tie-break is the original ordering). -/
theorem C5_stable_sort (query : Option Str) (hs : List HotelRecord)
    (l : List OutRec) (s : Int) :
    stageScored query hs =
      (if isTruthy query && !hs.isEmpty then
        sortByScore (hs.map (mkScored (lowerStr (query.getD []))))
      else hs.map mkPlain) ∧
    SortedDesc (sortByScore l) ∧
    List.Perm (sortByScore l) l ∧
    (sortByScore l).filter (fun r => scoreOf r == s) =
      l.filter (fun r => scoreOf r == s) :=
  ⟨rfl, sortByScore_sorted l, sortByScore_perm l, filter_sortByScore s l⟩

/-- C6: when the query is absent or empty, or the working set is empty, no
returned record carries a `matchScore`, the returned list is the amenity
filter and 20-truncation of the structurally filtered set in its original
order, and the returned bases form a sublist (order preserved) of the
structurally filtered candidate set. -/
theorem C6_no_query_plain (query location : Option Str) (maxPrice : Option Int)
    (amenity : Option Str) (listings : List HotelRecord) (r : OutRec)
    (h : isTruthy query = false ∨ stageFiltered location maxPrice listings = [])
    (hr : r ∈ (searchHotels query location maxPrice amenity listings).hotels) :
    r.matchScore = none ∧
    (searchHotels query location maxPrice amenity listings).hotels =
      (stageAmenity amenity
        ((stageFiltered location maxPrice listings).map mkPlain)).take 20 ∧
    List.Sublist
      ((searchHotels query location maxPrice amenity listings).hotels.map OutRec.base)
      (stageFiltered location maxPrice listings) := by
  have hguard : (isTruthy query && !(stageFiltered location maxPrice listings).isEmpty)
      = false := by
    rcases h with h | h
    · simp [h]
    · simp [h]
  have hscored : stageScored query (stageFiltered location maxPrice listings) =
      (stageFiltered location maxPrice listings).map mkPlain := by
    unfold stageScored
    rw [hguard]
    simp
  have hhotels : (searchHotels query location maxPrice amenity listings).hotels =
      (stageAmenity amenity
        ((stageFiltered location maxPrice listings).map mkPlain)).take 20 := by
    simp only [searchHotels, hscored]
  refine ⟨?_, hhotels, ?_⟩
  · rw [hhotels] at hr
    have h1 := List.take_subset 20 _ hr
    have h2 : r ∈ (stageFiltered location maxPrice listings).map mkPlain := by
      unfold stageAmenity at h1
      split at h1
      · exact (List.mem_filter.1 h1).1
      · exact h1
    rcases List.mem_map.1 h2 with ⟨hb, _, rfl⟩
    rfl
  · rw [hhotels]
    have hsub1 : List.Sublist
        ((stageAmenity amenity
          ((stageFiltered location maxPrice listings).map mkPlain)).take 20)
        ((stageFiltered location maxPrice listings).map mkPlain) := by
      refine List.Sublist.trans (List.take_sublist 20 _) ?_
      unfold stageAmenity
      split
      · exact List.filter_sublist _
      · exact List.Sublist.refl _
    have hsub2 := hsub1.map OutRec.base
    have hmap : ((stageFiltered location maxPrice listings).map mkPlain).map OutRec.base
        = stageFiltered location maxPrice listings := by
      rw [List.map_map]
      simp [Function.comp_def, mkPlain]
    rw [hmap] at hsub2
    exact hsub2

/-- Witness for C6: with no query, the single record comes back without a
score, and the output bases form a sublist of the filtered set. -/
theorem C6_no_query_plain_witness :
    (⟨hW, none⟩ : OutRec).matchScore = none ∧
    (searchHotels none none none none [hW]).hotels =
      (stageAmenity none ((stageFiltered none none [hW]).map mkPlain)).take 20 ∧
    List.Sublist ((searchHotels none none none none [hW]).hotels.map OutRec.base)
      (stageFiltered none none [hW]) :=
  C6_no_query_plain none none none none [hW] ⟨hW, none⟩ (Or.inl rfl) (by decide)

/-- C7: for every input the returned list is the first 20 records of the
filtered, possibly scored-and-sorted list, hence never longer than 20, and
the returned count equals its exact length. -/
theorem C7_truncation_count (query location : Option Str) (maxPrice : Option Int)
    (amenity : Option Str) (listings : List HotelRecord) :
    (searchHotels query location maxPrice amenity listings).hotels =
      (stageAmenity amenity
        (stageScored query (stageFiltered location maxPrice listings))).take 20 ∧
    (searchHotels query location maxPrice amenity listings).hotels.length ≤ 20 ∧
    (searchHotels query location maxPrice amenity listings).count =
      (searchHotels query location maxPrice amenity listings).hotels.length := by
  refine ⟨rfl, ?_, rfl⟩
  simp only [searchHotels, List.length_take]
  exact min_le_left _ _

/-- C8: with a supplied `maxPrice`, a record survives the structural
filter exactly when it is a candidate, passes the location filter, and has
price less than or equal to `maxPrice` (so a record priced exactly at the
bound is kept, as the second conjunct shows on the boundary input); the
filter is applied for every query value, present or not. -/
theorem C8_maxPrice_filter (location : Option Str) (mp : Int)
    (listings : List HotelRecord) (r : HotelRecord) (query amenity : Option Str) :
    (r ∈ stageFiltered location (some mp) listings ↔
      r ∈ listings ∧ dbLocPass location r = true ∧ r.price ≤ mp) ∧
    dbPricePass (some r.price) r = true ∧
    (searchHotels query location (some mp) amenity listings).hotels =
      (stageAmenity amenity
        (stageScored query (stageFiltered location (some mp) listings))).take 20 := by
  refine ⟨?_, by simp [dbPricePass], rfl⟩
  simp [stageFiltered, List.mem_filter, dbPass, dbPricePass, Bool.and_eq_true,
    decide_eq_true_eq, and_assoc]

/-- C9: the search is a pure function, so identical inputs give identical
outputs, and every returned record wraps (a copy of) one of the input
candidate records, whose fields are untouched. -/
theorem C9_deterministic_pure (query location : Option Str) (maxPrice : Option Int)
    (amenity : Option Str) (listings : List HotelRecord) (r : OutRec)
    (hr : r ∈ (searchHotels query location maxPrice amenity listings).hotels) :
    searchHotels query location maxPrice amenity listings =
      searchHotels query location maxPrice amenity listings ∧
    r.base ∈ listings := by
  refine ⟨rfl, ?_⟩
  have h1 := base_mem_stageScored (mem_hotels_mem_stageScored hr)
  simp only [stageFiltered] at h1
  exact (List.mem_filter.1 h1).1

/-- Witness for C9 at a concrete scored search. -/
theorem C9_deterministic_pure_witness :
    (searchHotels (some "pool".data) none none none [hW] =
      searchHotels (some "pool".data) none none none [hW]) ∧
    (⟨hW, some 45⟩ : OutRec).base ∈ [hW] :=
  C9_deterministic_pure (some "pool".data) none none none [hW]
    ⟨hW, some 45⟩ (by decide)

/-- C10: because keyword activation is raw substring containment, a query
containing "beach" also activates the keyword "ac" (a substring of
"beach"), so a record whose lower-cased description or title contains
"beach" collects at least 40 points from the keyword loop alone; likewise
any query containing "search" activates the keyword "sea". -/
theorem C10_substring_activation (queryLower descLower titleLower q2 : Str)
    (amenities : List Str)
    (hq : containsSub queryLower "beach".data = true)
    (hd : containsSub descLower "beach".data = true ∨
          containsSub titleLower "beach".data = true)
    (hq2 : containsSub q2 "search".data = true) :
    40 ≤ keywordScore queryLower descLower titleLower amenities ∧
    containsSub q2 "sea".data = true := by
  constructor
  · have hac : containsSub queryLower "ac".data = true :=
      containsSub_trans hq (by decide)
    have hbeach : 20 ≤ kwContribution queryLower descLower titleLower amenities "beach".data := by
      have h1 : (containsSub queryLower "beach".data &&
          (containsSub descLower "beach".data || containsSub titleLower "beach".data))
          = true := by
        rcases hd with h | h <;> simp [hq, h]
      simp only [kwContribution, h1, if_true]
      split <;> omega
    have hacc : 20 ≤ kwContribution queryLower descLower titleLower amenities "ac".data := by
      have h1 : (containsSub queryLower "ac".data &&
          (containsSub descLower "ac".data || containsSub titleLower "ac".data))
          = true := by
        rcases hd with h | h
        · simp [hac, containsSub_trans h (show containsSub "beach".data "ac".data = true by decide)]
        · simp [hac, containsSub_trans h (show containsSub "beach".data "ac".data = true by decide)]
      simp only [kwContribution, h1, if_true]
      split <;> omega
    have hn := kwContribution_nonneg queryLower descLower titleLower amenities
    rw [keywordScore_eq_sum]
    simp only [keywords, List.map_cons, List.map_nil, List.sum_cons, List.sum_nil]
    linarith [hbeach, hacc, hn "pool".data, hn "wifi".data, hn "parking".data,
      hn "air conditioning".data, hn "kitchen".data, hn "gym".data, hn "spa".data,
      hn "garden".data, hn "luxury".data, hn "budget".data, hn "family".data,
      hn "couple".data, hn "business".data, hn "mountain".data, hn "hill".data,
      hn "sea".data]
  · exact containsSub_trans hq2 (by decide)

/-- Witness for C10 at a concrete beach query and record, and the query
"search hotels" for the "sea" activation. -/
theorem C10_substring_activation_witness :
    40 ≤ keywordScore "beach trip".data "sunny beach".data "hotel".data [] ∧
    containsSub "search hotels".data "sea".data = true :=
  C10_substring_activation "beach trip".data "sunny beach".data "hotel".data
    "search hotels".data [] (by decide) (Or.inl (by decide)) (by decide)

end SmartStay
